import Mathlib

/-!
Verification of the header-serialization layer of rocketmq-rust:
`RegisterBrokerRequestHeader` (remoting/src/protocol/header/broker_request_header.rs)
and `GetMaxOffsetRequestHeader`
(rocketmq-remoting/src/protocol/header/get_max_offset_request_header.rs),
together with the routing sub-header they compose.

The wire-level `HashMap<String, String>` is embedded as an association list
with replace-on-insert semantics (keys unique when built from inserts);
Rust's `to_string`/`parse` for integers and booleans are embedded as
canonical decimal printing and strict parsing; code paths that panic
(`Option::unwrap` on a failed parse) are embedded as `Option` with `none`
standing for the panic.
-/

/-! ## Field Map: wire representation (HashMap String String) -/

/-- Wire-level field map: string keys to string values, keys unique. -/
def FieldMap : Type := List (String × String)

/-- Lookup: first entry with the given key (HashMap get). -/
def mapGet (m : FieldMap) (k : String) : Option String :=
  match m with
  | [] => none
  | (k', v) :: rest => if k' = k then some v else mapGet rest k

/-- Insert: replace the entry with this key, or append (HashMap insert). -/
def mapInsert (m : FieldMap) (k : String) (v : String) : FieldMap :=
  match m with
  | [] => [(k, v)]
  | (k', v') :: rest =>
    if k' = k then (k, v) :: rest else (k', v') :: mapInsert rest k v

/-- HashMap extend: insert every entry of `sub` into `m`, in order. -/
def mapExtend (m : FieldMap) (sub : FieldMap) : FieldMap :=
  sub.foldl (fun acc p => mapInsert acc p.1 p.2) m

/-- Key set has no duplicates: holds for every map built from inserts. -/
def NodupKeys (m : FieldMap) : Prop := (m.map Prod.fst).Nodup

theorem mapGet_nil (k : String) : mapGet [] k = none := rfl

theorem mapGet_cons (k' v k : String) (rest : FieldMap) :
    mapGet ((k', v) :: rest) k = if k' = k then some v else mapGet rest k := rfl

theorem mapGet_mapInsert (m : FieldMap) (k v k' : String) :
    mapGet (mapInsert m k v) k' = if k = k' then some v else mapGet m k' := by
  induction m with
  | nil => simp [mapInsert, mapGet]
  | cons p rest ih =>
    obtain ⟨a, b⟩ := p
    by_cases hak : a = k
    · subst hak
      by_cases hk' : a = k'
      · subst hk'
        simp [mapInsert, mapGet]
      · simp [mapInsert, mapGet, hk']
    · simp only [mapInsert, if_neg hak, mapGet, ih]
      by_cases hak' : a = k'
      · subst hak'
        have hka : ¬ k = a := fun hh => hak hh.symm
        simp [hka]
      · simp [hak']

theorem mapGet_eq_none_of_not_mem (m : FieldMap) (k : String)
    (h : k ∉ m.map Prod.fst) : mapGet m k = none := by
  induction m with
  | nil => rfl
  | cons p rest ih =>
    obtain ⟨a, b⟩ := p
    simp only [List.map_cons, List.mem_cons] at h
    push_neg at h
    have hne : ¬ a = k := fun hh => h.1 hh.symm
    simp only [mapGet, if_neg hne]
    exact ih h.2

theorem mapExtend_nil (m : FieldMap) : mapExtend m [] = m := rfl

theorem mapExtend_cons (m : FieldMap) (k v : String) (rest : FieldMap) :
    mapExtend m ((k, v) :: rest) = mapExtend (mapInsert m k v) rest := rfl

/-- Merge semantics of HashMap extend: entries of `sub` take precedence
over entries of `m`; keys absent from `sub` fall through to `m`. -/
theorem mapGet_mapExtend (sub : FieldMap) (hs : NodupKeys sub)
    (m : FieldMap) (k : String) :
    mapGet (mapExtend m sub) k =
      match mapGet sub k with
      | some v => some v
      | none => mapGet m k := by
  induction sub generalizing m with
  | nil => simp [mapExtend_nil, mapGet_nil]
  | cons p rest ih =>
    obtain ⟨a, b⟩ := p
    simp only [NodupKeys, List.map_cons, List.nodup_cons] at hs
    rw [mapExtend_cons, ih hs.2, mapGet_cons]
    by_cases hak : a = k
    · subst hak
      rw [mapGet_eq_none_of_not_mem rest a hs.1]
      simp [mapGet_mapInsert]
    · simp only [if_neg hak]
      cases mapGet rest k with
      | none => simp [mapGet_mapInsert, fun h : k = a => hak h.symm, hak]
      | some v => rfl

theorem nodupKeys_nil : NodupKeys [] := List.nodup_nil

theorem mapInsert_cons_self (a b v : String) (rest : FieldMap) :
    mapInsert ((a, b) :: rest) a v = (a, v) :: rest := by
  simp [mapInsert]

theorem mapInsert_cons_ne (a b k v : String) (rest : FieldMap) (h : ¬ a = k) :
    mapInsert ((a, b) :: rest) k v = (a, b) :: mapInsert rest k v := by
  simp [mapInsert, h]

theorem mem_keys_mapInsert (m : FieldMap) (k v x : String)
    (hx : x ∈ (mapInsert m k v).map Prod.fst) :
    x ∈ m.map Prod.fst ∨ x = k := by
  induction m with
  | nil =>
    simp [mapInsert] at hx
    exact Or.inr hx
  | cons p rest ih =>
    obtain ⟨a, b⟩ := p
    by_cases hak : a = k
    · subst hak
      rw [mapInsert_cons_self] at hx
      simp only [List.map_cons, List.mem_cons] at hx
      simp only [List.map_cons, List.mem_cons]
      rcases hx with h1 | h1
      · exact Or.inr h1
      · exact Or.inl (Or.inr h1)
    · rw [mapInsert_cons_ne a b k v rest hak] at hx
      simp only [List.map_cons, List.mem_cons] at hx
      simp only [List.map_cons, List.mem_cons]
      rcases hx with h1 | h1
      · exact Or.inl (Or.inl h1)
      · rcases ih h1 with h2 | h2
        · exact Or.inl (Or.inr h2)
        · exact Or.inr h2

theorem nodupKeys_mapInsert (m : FieldMap) (k v : String) (h : NodupKeys m) :
    NodupKeys (mapInsert m k v) := by
  induction m with
  | nil => simp [mapInsert, NodupKeys]
  | cons p rest ih =>
    obtain ⟨a, b⟩ := p
    simp only [NodupKeys, List.map_cons, List.nodup_cons] at h
    by_cases hak : a = k
    · subst hak
      rw [mapInsert_cons_self]
      simp only [NodupKeys, List.map_cons, List.nodup_cons]
      exact h
    · rw [mapInsert_cons_ne a b k v rest hak]
      simp only [NodupKeys, List.map_cons, List.nodup_cons]
      refine ⟨fun hx => ?_, ih h.2⟩
      rcases mem_keys_mapInsert rest k v a hx with h1 | h1
      · exact h.1 h1
      · exact hak h1

theorem nodupKeys_mapExtend (m sub : FieldMap) (h : NodupKeys m) :
    NodupKeys (mapExtend m sub) := by
  induction sub generalizing m with
  | nil => exact h
  | cons p rest ih =>
    rw [show mapExtend m (p :: rest) = mapExtend (mapInsert m p.1 p.2) rest from rfl]
    exact ih _ (nodupKeys_mapInsert m p.1 p.2 h)

/-! ## Rust `to_string` / `parse` for integers and booleans -/

/-- The decimal digit character for `d < 10`. -/
def digitChar (d : Nat) : Char :=
  match d with
  | 0 => '0' | 1 => '1' | 2 => '2' | 3 => '3' | 4 => '4'
  | 5 => '5' | 6 => '6' | 7 => '7' | 8 => '8' | 9 => '9'
  | _ => '*'

/-- Decimal digits of a natural number, most significant first. -/
def natDigits (n : Nat) : List Nat :=
  if h : n < 10 then [n] else natDigits (n / 10) ++ [n % 10]
decreasing_by exact Nat.div_lt_self (by omega) (by omega)

/-- Canonical decimal character string of a natural number. -/
def natChars (n : Nat) : List Char := (natDigits n).map digitChar

/-- Rust `u64/u32::to_string` and the `Nat` part of signed `to_string`. -/
def natToString (n : Nat) : String := ⟨natChars n⟩

/-- Rust `i64/i32::to_string`: canonical decimal, `-` sign for negatives. -/
def intToString (i : Int) : String :=
  if i < 0 then ⟨'-' :: natChars i.natAbs⟩ else ⟨natChars i.natAbs⟩

/-- Numeric value of a decimal digit character, if it is one. -/
def charDigit (c : Char) : Option Nat :=
  if 48 ≤ c.toNat ∧ c.toNat ≤ 57 then some (c.toNat - 48) else none

/-- Accumulating decimal parser over characters; fails on a non-digit. -/
def parseDigitsAux (acc : Nat) : List Char → Option Nat
  | [] => some acc
  | c :: cs => (charDigit c).bind fun d => parseDigitsAux (acc * 10 + d) cs

/-- Parse a non-empty all-digit character list as a natural number. -/
def parseDigits : List Char → Option Nat
  | [] => none
  | c :: cs => parseDigitsAux 0 (c :: cs)

/-- Rust integer `from_str` core: optional `+`/`-` sign, then digits. -/
def parseSignDigits (cs : List Char) : Option Int :=
  match cs with
  | [] => none
  | c :: rest =>
    if c = '-' then (parseDigits rest).map (fun n => -(n : Int))
    else if c = '+' then (parseDigits rest).map (fun n => (n : Int))
    else (parseDigits (c :: rest)).map (fun n => (n : Int))

/-- Rust `str::parse::<i32>`: sign and digits, range-checked. -/
def parseI32 (s : String) : Option Int :=
  (parseSignDigits s.data).bind fun i =>
    if -(2 ^ 31) ≤ i ∧ i < 2 ^ 31 then some i else none

/-- Rust `str::parse::<i64>`: sign and digits, range-checked. -/
def parseI64 (s : String) : Option Int :=
  (parseSignDigits s.data).bind fun i =>
    if -(2 ^ 63) ≤ i ∧ i < 2 ^ 63 then some i else none

/-- Rust unsigned `from_str` core: optional `+`, then digits;
a `-` sign is always an error for unsigned parse. -/
def parseUnsignedCore : List Char → Option Nat
  | [] => none
  | c :: rest =>
    if c = '-' then none
    else if c = '+' then parseDigits rest
    else parseDigits (c :: rest)

/-- Rust `str::parse::<u32>`: unsigned core, range-checked. -/
def parseU32 (s : String) : Option Nat :=
  (parseUnsignedCore s.data).bind fun n =>
    if n < 2 ^ 32 then some n else none

/-- Rust `str::parse::<bool>`: exactly `"true"` or `"false"`. -/
def parseBool (s : String) : Option Bool :=
  if s = "true" then some true else if s = "false" then some false else none

/-- Rust `bool::to_string`. -/
def boolToString (b : Bool) : String := if b then "true" else "false"

theorem charDigit_digitChar (d : Nat) (h : d < 10) :
    charDigit (digitChar d) = some d := by
  interval_cases d <;> rfl

theorem digitChar_ne_minus (d : Nat) (h : d < 10) : ¬ digitChar d = '-' := by
  interval_cases d <;> decide

theorem digitChar_ne_plus (d : Nat) (h : d < 10) : ¬ digitChar d = '+' := by
  interval_cases d <;> decide

theorem natDigits_ne_nil (n : Nat) : natDigits n ≠ [] := by
  rw [natDigits]
  split <;> simp

theorem natDigits_length_of_ge (n : Nat) (h : ¬ n < 10) :
    (natDigits n).length = (natDigits (n / 10)).length + 1 := by
  rw [natDigits, dif_neg h, List.length_append, List.length_singleton]

theorem parseDigitsAux_append (xs ys : List Char) (acc : Nat) :
    parseDigitsAux acc (xs ++ ys) =
      (parseDigitsAux acc xs).bind fun a => parseDigitsAux a ys := by
  induction xs generalizing acc with
  | nil => rfl
  | cons c cs ih =>
    rw [List.cons_append]
    cases hc : charDigit c with
    | none => simp [parseDigitsAux, hc]
    | some d => simp [parseDigitsAux, hc, ih]

theorem parseDigitsAux_natChars (n : Nat) :
    ∀ acc, parseDigitsAux acc (natChars n) =
      some (acc * 10 ^ (natDigits n).length + n) := by
  induction n using Nat.strong_induction_on with
  | _ n ih =>
    intro acc
    by_cases h : n < 10
    · rw [natChars, natDigits, dif_pos h]
      simp [parseDigitsAux, charDigit_digitChar n h]
    · have hdiv : n / 10 < n := Nat.div_lt_self (by omega) (by omega)
      rw [natChars, natDigits, dif_neg h, List.map_append]
      rw [show (natDigits (n / 10)).map digitChar = natChars (n / 10) from rfl]
      rw [parseDigitsAux_append, ih (n / 10) hdiv acc]
      have hm : n % 10 < 10 := Nat.mod_lt n (by omega)
      simp only [Option.bind_some, List.map_cons, List.map_nil, parseDigitsAux,
        charDigit_digitChar (n % 10) hm, Option.bind_eq_bind, Option.some_bind]
      have hdm : n / 10 * 10 + n % 10 = n := by omega
      simp only [List.length_append, List.length_singleton]
      congr 1
      calc (acc * 10 ^ (natDigits (n / 10)).length + n / 10) * 10 + n % 10
          = acc * (10 ^ (natDigits (n / 10)).length * 10) +
              (n / 10 * 10 + n % 10) := by ring
        _ = acc * 10 ^ ((natDigits (n / 10)).length + 1) + n := by
              rw [hdm, pow_succ]

theorem natChars_ne_nil (n : Nat) : natChars n ≠ [] := by
  rw [natChars]
  intro h
  exact natDigits_ne_nil n (List.map_eq_nil.mp h)

theorem parseDigits_natChars (n : Nat) : parseDigits (natChars n) = some n := by
  obtain ⟨c, cs, hcons⟩ := List.exists_cons_of_ne_nil (natChars_ne_nil n)
  rw [hcons, parseDigits, ← hcons, parseDigitsAux_natChars n 0]
  simp

theorem natChars_head (n : Nat) :
    ∃ d cs, natChars n = digitChar d :: cs ∧ d < 10 := by
  induction n using Nat.strong_induction_on with
  | _ n ih =>
    by_cases h : n < 10
    · exact ⟨n, [], by rw [natChars, natDigits, dif_pos h]; rfl, h⟩
    · have hdiv : n / 10 < n := Nat.div_lt_self (by omega) (by omega)
      obtain ⟨d, cs, hcons, hd⟩ := ih (n / 10) hdiv
      refine ⟨d, cs ++ [digitChar (n % 10)], ?_, hd⟩
      rw [natChars, natDigits, dif_neg h, List.map_append]
      rw [show (natDigits (n / 10)).map digitChar = natChars (n / 10) from rfl]
      rw [hcons]
      rfl

theorem parseSignDigits_natChars (n : Nat) :
    parseSignDigits (natChars n) = some (n : Int) := by
  obtain ⟨d, cs, hcons, hd⟩ := natChars_head n
  rw [hcons, parseSignDigits]
  rw [if_neg (digitChar_ne_minus d hd), if_neg (digitChar_ne_plus d hd)]
  rw [← hcons, parseDigits_natChars n]
  rfl

theorem parseSignDigits_intToString (i : Int) :
    parseSignDigits (intToString i).data = some i := by
  by_cases hi : i < 0
  · rw [intToString, if_pos hi]
    have hdata : (⟨'-' :: natChars i.natAbs⟩ : String).data
        = '-' :: natChars i.natAbs := rfl
    rw [hdata, parseSignDigits, if_pos rfl, parseDigits_natChars]
    have habs : (i.natAbs : Int) = -i := by omega
    simp [habs]
  · rw [intToString, if_neg hi]
    have hdata : (⟨natChars i.natAbs⟩ : String).data = natChars i.natAbs := rfl
    rw [hdata, parseSignDigits_natChars]
    have habs : (i.natAbs : Int) = i := by omega
    rw [habs]

theorem parseI64_intToString (i : Int) (h1 : -(2 ^ 63) ≤ i) (h2 : i < 2 ^ 63) :
    parseI64 (intToString i) = some i := by
  rw [parseI64, parseSignDigits_intToString]
  norm_num at h1 h2
  simp [h1, h2]

theorem parseU32_natToString (n : Nat) (h : n < 2 ^ 32) :
    parseU32 (natToString n) = some n := by
  obtain ⟨d, cs, hcons, hd⟩ := natChars_head n
  have hdata : (natToString n).data = natChars n := rfl
  rw [parseU32, hdata, hcons, parseUnsignedCore]
  rw [if_neg (digitChar_ne_minus d hd), if_neg (digitChar_ne_plus d hd)]
  rw [← hcons, parseDigits_natChars n]
  norm_num at h
  simp [h]

theorem parseBool_boolToString (b : Bool) :
    parseBool (boolToString b) = some b := by
  cases b <;> rfl

/-! ## Routing sub-header (rpc/topic_request_header.rs, not in scope of src/) -/

/-- Modelled from the spec: the RPC-identity group of the routing sub-header
(`RpcRequestHeader`, whose source file is not part of src/): broker name,
namespace, namespaced flag, one-way flag, all optional (spec 4.2). -/
structure RpcRequestHeader where
  namespace' : Option String
  namespaced : Option Bool
  broker_name : Option String
  oneway : Option Bool
deriving DecidableEq, Repr

/-- Modelled from the spec: the routing sub-header (`TopicRequestHeader`,
whose source file is not part of src/): the `lo` flag lives directly on it,
and the remaining routing fields are nested one level further inside the
optional RPC-identity group (spec 4.2; nesting confirmed by the accessor
chains in get_max_offset_request_header.rs). -/
structure TopicRequestHeader where
  lo : Option Bool
  rpc_request_header : Option RpcRequestHeader
deriving DecidableEq, Repr

/-- Modelled from the spec: `RpcRequestHeader`'s `from` (spec 4.1/4.2):
optional fields read their standalone wire keys; absent or unparsable keys
yield `None`; reconstruction itself always succeeds. -/
def RpcRequestHeader.fromMap (m : FieldMap) : Option RpcRequestHeader :=
  some { namespace' := mapGet m "namespace"
         namespaced := (mapGet m "namespaced").bind parseBool
         broker_name := mapGet m "brokerName"
         oneway := (mapGet m "oneway").bind parseBool }

/-- Modelled from the spec: `TopicRequestHeader`'s `from` (spec 4.2/4.4):
reads its own keys from the same input map, reconstructs the RPC-identity
group from that map as well, and always succeeds. -/
def TopicRequestHeader.fromMap (m : FieldMap) : Option TopicRequestHeader :=
  some { lo := (mapGet m "lo").bind parseBool
         rpc_request_header := RpcRequestHeader.fromMap m }

/-- Modelled from the spec: `RpcRequestHeader`'s `to_map` (spec 4.1):
every optional field that is set is inserted under its standalone wire key;
`None`-valued fields are omitted entirely. -/
def RpcRequestHeader.toMap (rpc : RpcRequestHeader) : Option FieldMap :=
  let m : FieldMap := []
  let m := match rpc.namespace' with
    | some v => mapInsert m "namespace" v
    | none => m
  let m := match rpc.namespaced with
    | some v => mapInsert m "namespaced" (boolToString v)
    | none => m
  let m := match rpc.broker_name with
    | some v => mapInsert m "brokerName" v
    | none => m
  let m := match rpc.oneway with
    | some v => mapInsert m "oneway" (boolToString v)
    | none => m
  some m

/-- Modelled from the spec: `TopicRequestHeader`'s `to_map` (spec 4.2/4.4):
inserts its own set fields, then merges in the RPC-identity group's map
under the keys those fields would use standalone. -/
def TopicRequestHeader.toMap (tr : TopicRequestHeader) : Option FieldMap :=
  let m : FieldMap := []
  let m := match tr.lo with
    | some v => mapInsert m "lo" (boolToString v)
    | none => m
  let m := match tr.rpc_request_header with
    | some rpc =>
      match rpc.toMap with
      | some rm => mapExtend m rm
      | none => m
    | none => m
  some m

/-! ## GetMaxOffsetRequestHeader (get_max_offset_request_header.rs) -/

/-- The `GetMaxOffsetRequestHeader` struct: topic, queue id (i32),
committed flag, and the optional embedded routing sub-header. -/
structure GetMaxOffsetRequestHeader where
  topic : String
  queue_id : Int
  committed : Bool
  topic_request_header : Option TopicRequestHeader
deriving DecidableEq, Repr

/-- The `Default` impl: empty topic, zero queue id, `committed = true`,
no sub-header. -/
def GetMaxOffsetRequestHeader.default : GetMaxOffsetRequestHeader :=
  { topic := "", queue_id := 0, committed := true, topic_request_header := none }

/-- Source `CommandCustomHeader::to_map`: inserts `topic`, `queueId`, `committed`,
then extends the map with the sub-header's map when the sub-header is
present. -/
def GetMaxOffsetRequestHeader.toMap (h : GetMaxOffsetRequestHeader) :
    Option FieldMap :=
  let m := mapInsert (mapInsert (mapInsert [] "topic" h.topic)
    "queueId" (intToString h.queue_id)) "committed" (boolToString h.committed)
  let m := match h.topic_request_header with
    | some tr =>
      match tr.toMap with
      | some sm => mapExtend m sm
      | none => m
    | none => m
  some m

/-- Source `FromMap::from`: `topic` falls back to the empty string when absent;
`queueId` and `committed` use `map(|s| s.parse().unwrap())`, so an absent
key falls back to the default (`0` resp. `true`) but a present key that
fails to parse panics — the panic is embedded as `none`. The sub-header is
reconstructed from the same map. -/
def GetMaxOffsetRequestHeader.fromMap (m : FieldMap) :
    Option GetMaxOffsetRequestHeader :=
  let qres : Option Int := match mapGet m "queueId" with
    | none => some 0
    | some s => parseI32 s
  let cres : Option Bool := match mapGet m "committed" with
    | none => some true
    | some s => parseBool s
  match qres, cres with
  | some q, some c =>
    some { topic := (mapGet m "topic").getD ""
           queue_id := q
           committed := c
           topic_request_header := TopicRequestHeader.fromMap m }
  | _, _ => none

/-- Source `TopicRequestHeaderTrait::set_topic`: writes the parent's own `topic`
field; the sub-header is not touched. -/
def GetMaxOffsetRequestHeader.setTopic (h : GetMaxOffsetRequestHeader)
    (t : String) : GetMaxOffsetRequestHeader :=
  { h with topic := t }

/-- Source `TopicRequestHeaderTrait::topic`: reads the parent's own field. -/
def GetMaxOffsetRequestHeader.topicGet (h : GetMaxOffsetRequestHeader) :
    String := h.topic

/-- Source `TopicRequestHeaderTrait::broker_name`: unwraps the sub-header, then
the RPC-identity group, then reads `broker_name`; the two `unwrap`s panic
when either level is absent — embedded as `none`. -/
def GetMaxOffsetRequestHeader.brokerNameGet (h : GetMaxOffsetRequestHeader) :
    Option (Option String) :=
  match h.topic_request_header with
  | none => none
  | some tr =>
    match tr.rpc_request_header with
    | none => none
    | some rpc => some rpc.broker_name

/-- Source `TopicRequestHeaderTrait::set_broker_name`: unwraps the sub-header and
the RPC-identity group (panic, embedded as `none`, when absent) and stores
`Some(broker_name)` there. -/
def GetMaxOffsetRequestHeader.setBrokerName (h : GetMaxOffsetRequestHeader)
    (b : String) : Option GetMaxOffsetRequestHeader :=
  match h.topic_request_header with
  | none => none
  | some tr =>
    match tr.rpc_request_header with
    | none => none
    | some rpc =>
      some { h with topic_request_header := some ({ tr with rpc_request_header := some ({ rpc with broker_name := some b }) }) }

/-- Source `TopicRequestHeaderTrait::queue_id`: returns `Some(self.queue_id)` from
the parent's own field; no unwrap, never panics. -/
def GetMaxOffsetRequestHeader.queueIdGet (h : GetMaxOffsetRequestHeader) :
    Option Int := some h.queue_id

/-- Source `TopicRequestHeaderTrait::set_queue_id`: stores
`queue_id.unwrap_or_default()` into the parent's own field; never panics. -/
def GetMaxOffsetRequestHeader.setQueueId (h : GetMaxOffsetRequestHeader)
    (q : Option Int) : GetMaxOffsetRequestHeader :=
  { h with queue_id := q.getD 0 }

/-! ## RegisterBrokerRequestHeader (broker_request_header.rs) -/

/-- The `RegisterBrokerRequestHeader` struct. -/
structure RegisterBrokerRequestHeader where
  broker_name : String
  broker_addr : String
  cluster_name : String
  ha_server_addr : String
  broker_id : Int
  heartbeat_timeout_millis : Option Int
  enable_acting_master : Option Bool
  compressed : Bool
  body_crc32 : Nat
deriving DecidableEq, Repr

/-- Source `FromMap::from`: every field is read with an explicit fallback
(`.map(...)` or `.and_then(|s| s.parse().ok())` followed by
`unwrap_or`-style defaults), so reconstruction always succeeds. -/
def RegisterBrokerRequestHeader.fromMap (m : FieldMap) :
    Option RegisterBrokerRequestHeader :=
  some { broker_name := (mapGet m "brokerName").getD ""
         broker_addr := (mapGet m "brokerAddr").getD ""
         cluster_name := (mapGet m "clusterName").getD ""
         ha_server_addr := (mapGet m "haServerAddr").getD ""
         broker_id := ((mapGet m "brokerId").bind parseI64).getD 0
         heartbeat_timeout_millis :=
           (mapGet m "heartbeatTimeoutMillis").bind parseI64
         enable_acting_master :=
           (mapGet m "enableActingMaster").bind parseBool
         compressed := ((mapGet m "compressed").bind parseBool).getD false
         body_crc32 := ((mapGet m "bodyCrc32").bind parseU32).getD 0 }

/-- Source `CommandCustomHeader::to_map`: inserts the five required leading
fields, the two optional fields only when set, then `compressed` and
`bodyCrc32`. -/
def RegisterBrokerRequestHeader.toMap (h : RegisterBrokerRequestHeader) :
    Option FieldMap :=
  let m := mapInsert [] "brokerName" h.broker_name
  let m := mapInsert m "brokerAddr" h.broker_addr
  let m := mapInsert m "clusterName" h.cluster_name
  let m := mapInsert m "haServerAddr" h.ha_server_addr
  let m := mapInsert m "brokerId" (intToString h.broker_id)
  let m := match h.heartbeat_timeout_millis with
    | some v => mapInsert m "heartbeatTimeoutMillis" (intToString v)
    | none => m
  let m := match h.enable_acting_master with
    | some v => mapInsert m "enableActingMaster" (boolToString v)
    | none => m
  let m := mapInsert m "compressed" (boolToString h.compressed)
  let m := mapInsert m "bodyCrc32" (natToString h.body_crc32)
  some m

/-! ## Decidable side conditions for decode success -/

/-- Holds when the map's `queueId` value, if present, parses as an i32. -/
def queueIdParses (m : FieldMap) : Bool :=
  match mapGet m "queueId" with
  | none => true
  | some s => (parseI32 s).isSome

/-- Holds when the map's `committed` value, if present, parses as a bool. -/
def committedParses (m : FieldMap) : Bool :=
  match mapGet m "committed" with
  | none => true
  | some s => (parseBool s).isSome

/-- Characterization of a successful `GetMaxOffsetRequestHeader` decode:
the topic falls back to `""`, and an absent `queueId` / `committed` key
yields the declared default (`0` resp. `true`). -/
theorem getMaxOffset_fromMap_some_fields (m : FieldMap)
    (hdr : GetMaxOffsetRequestHeader)
    (hgm : GetMaxOffsetRequestHeader.fromMap m = some hdr) :
    hdr.topic = (mapGet m "topic").getD "" ∧
    (mapGet m "queueId" = none → hdr.queue_id = 0) ∧
    (mapGet m "committed" = none → hdr.committed = true) := by
  rcases hq : mapGet m "queueId" with _ | sq
  · rcases hc : mapGet m "committed" with _ | sc
    · simp only [GetMaxOffsetRequestHeader.fromMap, hq, hc,
        Option.some.injEq] at hgm
      subst hgm
      exact ⟨rfl, fun _ => rfl, fun _ => rfl⟩
    · rcases hp : parseBool sc with _ | b
      · simp [GetMaxOffsetRequestHeader.fromMap, hq, hc, hp] at hgm
      · simp only [GetMaxOffsetRequestHeader.fromMap, hq, hc, hp,
          Option.some.injEq] at hgm
        subst hgm
        exact ⟨rfl, fun _ => rfl, fun habs => Option.noConfusion habs⟩
  · rcases hpq : parseI32 sq with _ | q
    · simp [GetMaxOffsetRequestHeader.fromMap, hq, hpq] at hgm
    · rcases hc : mapGet m "committed" with _ | sc
      · simp only [GetMaxOffsetRequestHeader.fromMap, hq, hpq, hc,
          Option.some.injEq] at hgm
        subst hgm
        exact ⟨rfl, fun habs => Option.noConfusion habs, fun _ => rfl⟩
      · rcases hp : parseBool sc with _ | b
        · simp [GetMaxOffsetRequestHeader.fromMap, hq, hpq, hc, hp] at hgm
        · simp only [GetMaxOffsetRequestHeader.fromMap, hq, hpq, hc, hp,
            Option.some.injEq] at hgm
          subst hgm
          exact ⟨rfl, fun habs => Option.noConfusion habs,
            fun habs => Option.noConfusion habs⟩

/-- Characterization of the (always successful) decode of
`RegisterBrokerRequestHeader`: each field of the result. -/
theorem registerBroker_fromMap_eq (m : FieldMap) :
    RegisterBrokerRequestHeader.fromMap m =
      some { broker_name := (mapGet m "brokerName").getD ""
             broker_addr := (mapGet m "brokerAddr").getD ""
             cluster_name := (mapGet m "clusterName").getD ""
             ha_server_addr := (mapGet m "haServerAddr").getD ""
             broker_id := ((mapGet m "brokerId").bind parseI64).getD 0
             heartbeat_timeout_millis :=
               (mapGet m "heartbeatTimeoutMillis").bind parseI64
             enable_acting_master :=
               (mapGet m "enableActingMaster").bind parseBool
             compressed := ((mapGet m "compressed").bind parseBool).getD false
             body_crc32 := ((mapGet m "bodyCrc32").bind parseU32).getD 0 } :=
  rfl

/-- C1: on a map whose `committed` value is present but not a boolean,
`GetMaxOffsetRequestHeader::from` does not complete with the default —
`map(|s| s.parse().unwrap())` panics on the parse error (embedded as
`none`), contradicting the spec's lenient-fallback policy. -/
theorem getMaxOffset_from_unparsable_committed_panics :
    GetMaxOffsetRequestHeader.fromMap [("committed", "maybe")] = none := by
  decide

/-- C2 counterexample: a map whose `queueId` value does not parse as an
integer makes `GetMaxOffsetRequestHeader::from` panic (embedded as `none`)
instead of returning `Some`, so decode of the representative header types
does not always succeed. -/
theorem getMaxOffset_from_unparsable_queueId_not_some :
    GetMaxOffsetRequestHeader.fromMap [("queueId", "abc")] = none := by
  decide

/-- C2 (amended): `RegisterBrokerRequestHeader::from` is total and always
returns `Some`; `GetMaxOffsetRequestHeader::from` returns `Some` for every
map whose `queueId` and `committed` values, when present, parse — on any
other map it panics rather than returning. -/
theorem headers_from_total_amended (m : FieldMap)
    (hq : queueIdParses m = true) (hc : committedParses m = true) :
    (RegisterBrokerRequestHeader.fromMap m).isSome = true ∧
    (GetMaxOffsetRequestHeader.fromMap m).isSome = true := by
  constructor
  · rw [registerBroker_fromMap_eq]
    rfl
  · rcases hqq : mapGet m "queueId" with _ | sq
    · rcases hcc : mapGet m "committed" with _ | sc
      · simp [GetMaxOffsetRequestHeader.fromMap, hqq, hcc]
      · rw [committedParses, hcc] at hc
        obtain ⟨b, hb⟩ := Option.isSome_iff_exists.mp hc
        simp [GetMaxOffsetRequestHeader.fromMap, hqq, hcc, hb]
    · rw [queueIdParses, hqq] at hq
      obtain ⟨q, hqv⟩ := Option.isSome_iff_exists.mp hq
      rcases hcc : mapGet m "committed" with _ | sc
      · simp [GetMaxOffsetRequestHeader.fromMap, hqq, hqv, hcc]
      · rw [committedParses, hcc] at hc
        obtain ⟨b, hb⟩ := Option.isSome_iff_exists.mp hc
        simp [GetMaxOffsetRequestHeader.fromMap, hqq, hqv, hcc, hb]

/-- C2 witness: the amended totality theorem applied to a concrete map. -/
theorem headers_from_total_amended_witness :
    queueIdParses [("queueId", "3"), ("committed", "false")] = true ∧
    committedParses [("queueId", "3"), ("committed", "false")] = true ∧
    (RegisterBrokerRequestHeader.fromMap
        [("queueId", "3"), ("committed", "false")]).isSome = true ∧
    (GetMaxOffsetRequestHeader.fromMap
        [("queueId", "3"), ("committed", "false")]).isSome = true := by
  refine ⟨by decide, by decide, ?_⟩
  have h := headers_from_total_amended
    [("queueId", "3"), ("committed", "false")] (by decide) (by decide)
  exact ⟨h.1, h.2⟩

/-- C4 counterexample: decoding the empty map (no `committed` key) yields
`committed = true`, not `false` — the boolean falls back to its declared
default, refuting "false for boolean fields". -/
theorem getMaxOffset_from_missing_committed_not_false :
    (GetMaxOffsetRequestHeader.fromMap []).map
        GetMaxOffsetRequestHeader.committed = some true ∧
    (GetMaxOffsetRequestHeader.fromMap []).map
        GetMaxOffsetRequestHeader.committed ≠ some false := by
  decide

/-- C4 (amended): when a required field's key is absent, decode still
succeeds and the field takes the empty string (string fields), zero
(integer fields), or the field's declared boolean default — `false` for
`compressed` but `true` for `committed`. -/
theorem from_missing_required_key_defaults (m : FieldMap)
    (hdr : GetMaxOffsetRequestHeader) (rb : RegisterBrokerRequestHeader)
    (hgm : GetMaxOffsetRequestHeader.fromMap m = some hdr)
    (hrb : RegisterBrokerRequestHeader.fromMap m = some rb) :
    (mapGet m "topic" = none → hdr.topic = "") ∧
    (mapGet m "queueId" = none → hdr.queue_id = 0) ∧
    (mapGet m "committed" = none → hdr.committed = true) ∧
    (mapGet m "brokerName" = none → rb.broker_name = "") ∧
    (mapGet m "brokerAddr" = none → rb.broker_addr = "") ∧
    (mapGet m "clusterName" = none → rb.cluster_name = "") ∧
    (mapGet m "haServerAddr" = none → rb.ha_server_addr = "") ∧
    (mapGet m "brokerId" = none → rb.broker_id = 0) ∧
    (mapGet m "compressed" = none → rb.compressed = false) ∧
    (mapGet m "bodyCrc32" = none → rb.body_crc32 = 0) := by
  obtain ⟨ht, hq, hc⟩ := getMaxOffset_fromMap_some_fields m hdr hgm
  rw [registerBroker_fromMap_eq] at hrb
  obtain rfl := (Option.some.inj hrb).symm
  refine ⟨fun habs => ?_, hq, hc, fun habs => ?_, fun habs => ?_,
    fun habs => ?_, fun habs => ?_, fun habs => ?_, fun habs => ?_,
    fun habs => ?_⟩
  · rw [ht, habs]
    rfl
  all_goals simp [habs]

/-- The result of decoding the empty map as `GetMaxOffsetRequestHeader`. -/
def gmEmptyDecode : GetMaxOffsetRequestHeader :=
  ⟨"", 0, true, some ⟨none, some ⟨none, none, none, none⟩⟩⟩

/-- The result of decoding the empty map as `RegisterBrokerRequestHeader`. -/
def rbEmptyDecode : RegisterBrokerRequestHeader :=
  ⟨"", "", "", "", 0, none, none, false, 0⟩

/-- C4 witness: the amended theorem applied to the empty map. -/
theorem from_missing_required_key_defaults_witness :
    gmEmptyDecode.topic = "" ∧ gmEmptyDecode.queue_id = 0 ∧
    gmEmptyDecode.committed = true ∧ rbEmptyDecode.broker_name = "" ∧
    rbEmptyDecode.broker_addr = "" ∧ rbEmptyDecode.cluster_name = "" ∧
    rbEmptyDecode.ha_server_addr = "" ∧ rbEmptyDecode.broker_id = 0 ∧
    rbEmptyDecode.compressed = false ∧ rbEmptyDecode.body_crc32 = 0 := by
  have h := from_missing_required_key_defaults [] gmEmptyDecode rbEmptyDecode
    (by decide) (by decide)
  exact ⟨h.1 rfl, h.2.1 rfl, h.2.2.1 rfl, h.2.2.2.1 rfl, h.2.2.2.2.1 rfl,
    h.2.2.2.2.2.1 rfl, h.2.2.2.2.2.2.1 rfl, h.2.2.2.2.2.2.2.1 rfl,
    h.2.2.2.2.2.2.2.2.1 rfl, h.2.2.2.2.2.2.2.2.2 rfl⟩

/-- C5: in `RegisterBrokerRequestHeader::to_map`, each optional field's key
is present exactly when the field is set (carrying its printed value), and
every required field's key is always present. -/
theorem registerBroker_toMap_key_presence (h : RegisterBrokerRequestHeader) :
    mapGet ((RegisterBrokerRequestHeader.toMap h).getD [])
        "heartbeatTimeoutMillis"
      = h.heartbeat_timeout_millis.map intToString ∧
    mapGet ((RegisterBrokerRequestHeader.toMap h).getD []) "enableActingMaster"
      = h.enable_acting_master.map boolToString ∧
    mapGet ((RegisterBrokerRequestHeader.toMap h).getD []) "brokerName"
      = some h.broker_name ∧
    mapGet ((RegisterBrokerRequestHeader.toMap h).getD []) "brokerAddr"
      = some h.broker_addr ∧
    mapGet ((RegisterBrokerRequestHeader.toMap h).getD []) "clusterName"
      = some h.cluster_name ∧
    mapGet ((RegisterBrokerRequestHeader.toMap h).getD []) "haServerAddr"
      = some h.ha_server_addr ∧
    mapGet ((RegisterBrokerRequestHeader.toMap h).getD []) "brokerId"
      = some (intToString h.broker_id) ∧
    mapGet ((RegisterBrokerRequestHeader.toMap h).getD []) "compressed"
      = some (boolToString h.compressed) ∧
    mapGet ((RegisterBrokerRequestHeader.toMap h).getD []) "bodyCrc32"
      = some (natToString h.body_crc32) := by
  cases hh : h.heartbeat_timeout_millis <;> cases he : h.enable_acting_master <;>
    simp [RegisterBrokerRequestHeader.toMap, hh, he, mapGet_mapInsert, mapGet_nil]

/-- C3: encode-then-decode is the identity on `RegisterBrokerRequestHeader`
(fields within their Rust integer ranges, as the Rust types guarantee). -/
theorem registerBroker_encode_decode_roundtrip (h : RegisterBrokerRequestHeader)
    (h1 : -(2 ^ 63) ≤ h.broker_id) (h2 : h.broker_id < 2 ^ 63)
    (h3 : -(2 ^ 63) ≤ h.heartbeat_timeout_millis.getD 0)
    (h4 : h.heartbeat_timeout_millis.getD 0 < 2 ^ 63)
    (h5 : h.body_crc32 < 2 ^ 32) :
    RegisterBrokerRequestHeader.fromMap
      ((RegisterBrokerRequestHeader.toMap h).getD []) = some h := by
  obtain ⟨bn, ba, cn, ha, bid, hb, ea, comp, crc⟩ := h
  rw [registerBroker_fromMap_eq]
  cases hb with
  | none =>
    cases ea with
    | none =>
      simp [RegisterBrokerRequestHeader.toMap, mapGet_mapInsert, mapGet_nil,
        parseI64_intToString bid h1 h2, parseU32_natToString crc h5,
        parseBool_boolToString]
    | some e =>
      simp [RegisterBrokerRequestHeader.toMap, mapGet_mapInsert, mapGet_nil,
        parseI64_intToString bid h1 h2, parseU32_natToString crc h5,
        parseBool_boolToString]
  | some v =>
    cases ea with
    | none =>
      simp [RegisterBrokerRequestHeader.toMap, mapGet_mapInsert, mapGet_nil,
        parseI64_intToString bid h1 h2, parseI64_intToString v h3 h4,
        parseU32_natToString crc h5, parseBool_boolToString]
    | some e =>
      simp [RegisterBrokerRequestHeader.toMap, mapGet_mapInsert, mapGet_nil,
        parseI64_intToString bid h1 h2, parseI64_intToString v h3 h4,
        parseU32_natToString crc h5, parseBool_boolToString]

/-- A concrete register-broker header exercising both optional fields. -/
def rbSample : RegisterBrokerRequestHeader :=
  ⟨"bn", "ba", "cn", "ha", 7, some 9, some true, false, 5⟩

/-- C3 witness: the round-trip theorem applied to a concrete header. -/
theorem registerBroker_encode_decode_roundtrip_witness :
    (-(2 ^ 63) ≤ rbSample.broker_id ∧ rbSample.broker_id < 2 ^ 63 ∧
     -(2 ^ 63) ≤ rbSample.heartbeat_timeout_millis.getD 0 ∧
     rbSample.heartbeat_timeout_millis.getD 0 < 2 ^ 63 ∧
     rbSample.body_crc32 < 2 ^ 32) ∧
    RegisterBrokerRequestHeader.fromMap
      ((RegisterBrokerRequestHeader.toMap rbSample).getD []) = some rbSample := by
  refine ⟨⟨by decide, by decide, by decide, by decide, by decide⟩, ?_⟩
  exact registerBroker_encode_decode_roundtrip rbSample (by decide) (by decide)
    (by decide) (by decide) (by decide)

/-! ## Accessor and composition properties -/

/-- Lookup with the key first, for use as a `bind` continuation. -/
def mapGetF (k : String) (m : FieldMap) : Option String := mapGet m k

/-- A concrete header with the sub-header and RPC-identity group present. -/
def gmSample : GetMaxOffsetRequestHeader :=
  ⟨"t", 5, true, some ⟨none, some ⟨none, none, none, none⟩⟩⟩

/-- C6 counterexample: `set_queue_id` leaves the embedded sub-header
entirely unchanged yet changes what `queue_id()` returns, so the pair
cannot be reading/writing a sub-header field. -/
theorem queueId_accessor_not_delegating_cex :
    (gmSample.setQueueId (some 7)).topic_request_header
        = gmSample.topic_request_header ∧
    (gmSample.setQueueId (some 7)).queueIdGet ≠ gmSample.queueIdGet := by
  decide

/-- C6 (amended): `queue_id()`/`set_queue_id` operate on the parent's
direct `queue_id` field: the setter stores `v` (or `0` for `None`) there
and leaves the rest of the header — including the sub-header — unchanged,
and the getter returns `Some` of the parent field. -/
theorem queueId_accessors_parent_field (h : GetMaxOffsetRequestHeader)
    (q : Option Int) :
    (h.setQueueId q).queue_id = q.getD 0 ∧
    (h.setQueueId q).topic_request_header = h.topic_request_header ∧
    (h.setQueueId q).topic = h.topic ∧
    (h.setQueueId q).committed = h.committed ∧
    h.queueIdGet = some h.queue_id :=
  ⟨rfl, rfl, rfl, rfl, rfl⟩

/-- C10: unlike the other routing accessors, `queue_id()`/`set_queue_id`
never touch the sub-header and never panic: the getter always returns
`Some(self.queue_id)` and the setter stores `v` or `0` into the parent. -/
theorem queueId_accessors_total_parent (h : GetMaxOffsetRequestHeader)
    (v : Int) (q : Option Int) :
    h.queueIdGet = some h.queue_id ∧
    (h.setQueueId none).queue_id = 0 ∧
    (h.setQueueId (some v)).queue_id = v ∧
    (h.setQueueId q).topic_request_header = h.topic_request_header :=
  ⟨rfl, rfl, rfl, rfl⟩

/-- C8: `set_topic` writes only the parent's direct `topic` field; queue
id, committed flag and the embedded sub-header are exactly as before. -/
theorem setTopic_frame (h : GetMaxOffsetRequestHeader) (v : String) :
    (h.setTopic v).topic = v ∧
    (h.setTopic v).queue_id = h.queue_id ∧
    (h.setTopic v).committed = h.committed ∧
    (h.setTopic v).topic_request_header = h.topic_request_header :=
  ⟨rfl, rfl, rfl, rfl⟩

/-- The RPC-identity group's map has no duplicate keys. -/
theorem rpc_toMap_nodup (rpc : RpcRequestHeader) (rm : FieldMap)
    (h : RpcRequestHeader.toMap rpc = some rm) : NodupKeys rm := by
  obtain ⟨ns, nd, bn, ow⟩ := rpc
  cases ns <;> cases nd <;> cases bn <;> cases ow <;>
  · simp only [RpcRequestHeader.toMap, Option.some.injEq] at h
    subst h
    repeat (first | exact nodupKeys_nil | apply nodupKeys_mapInsert)

/-- The routing sub-header's map has no duplicate keys. -/
theorem topic_toMap_nodup (tr : TopicRequestHeader) (sm : FieldMap)
    (h : TopicRequestHeader.toMap tr = some sm) : NodupKeys sm := by
  obtain ⟨lo, rpcopt⟩ := tr
  cases lo <;> cases rpcopt <;>
  · simp only [TopicRequestHeader.toMap, RpcRequestHeader.toMap,
      Option.some.injEq] at h
    subst h
    repeat (first
      | exact nodupKeys_nil
      | apply nodupKeys_mapExtend
      | apply nodupKeys_mapInsert)

/-- C9: with the sub-header present, every key of the sub-header's map
wins over the parent's directly inserted entry for that key (HashMap
extend precedence), and keys the sub-header does not produce fall through
to the parent's own inserts. -/
theorem toMap_subheader_precedence (h : GetMaxOffsetRequestHeader)
    (tr : TopicRequestHeader) (sm : FieldMap) (k : String)
    (htr : h.topic_request_header = some tr)
    (hsm : TopicRequestHeader.toMap tr = some sm) :
    mapGet ((GetMaxOffsetRequestHeader.toMap h).getD []) k =
      match mapGet sm k with
      | some v => some v
      | none =>
        mapGet (mapInsert (mapInsert (mapInsert [] "topic" h.topic)
          "queueId" (intToString h.queue_id)) "committed"
          (boolToString h.committed)) k := by
  have hnd := topic_toMap_nodup tr sm hsm
  simp only [GetMaxOffsetRequestHeader.toMap, htr, hsm, Option.getD_some]
  exact mapGet_mapExtend sm hnd _ k

/-- A concrete empty routing sub-header; its map is empty. -/
def trSample : TopicRequestHeader := ⟨none, none⟩

/-- A concrete header embedding `trSample`. -/
def gmSample2 : GetMaxOffsetRequestHeader := ⟨"t2", 3, false, some trSample⟩

/-- C9 witness: the precedence theorem applied to a concrete header whose
sub-header produces the empty map, at the colliding key `topic`. -/
theorem toMap_subheader_precedence_witness :
    gmSample2.topic_request_header = some trSample ∧
    TopicRequestHeader.toMap trSample = some [] ∧
    mapGet ((GetMaxOffsetRequestHeader.toMap gmSample2).getD []) "topic" =
      mapGet (mapInsert (mapInsert (mapInsert [] "topic" gmSample2.topic)
        "queueId" (intToString gmSample2.queue_id)) "committed"
        (boolToString gmSample2.committed)) "topic" := by
  refine ⟨rfl, rfl, ?_⟩
  exact toMap_subheader_precedence gmSample2 trSample [] "topic" rfl rfl

/-- C7: with the sub-header and RPC-identity group present,
`set_broker_name("broker-a")` succeeds, `broker_name()` then reports
`Some("broker-a")`, and the subsequent `to_map` carries
`brokerName ↦ "broker-a"`. -/
theorem setBrokerName_roundtrip (h : GetMaxOffsetRequestHeader)
    (tr : TopicRequestHeader) (rpc : RpcRequestHeader)
    (htr : h.topic_request_header = some tr)
    (hrpc : tr.rpc_request_header = some rpc) :
    ((h.setBrokerName "broker-a").bind
        GetMaxOffsetRequestHeader.brokerNameGet) = some (some "broker-a") ∧
    (((h.setBrokerName "broker-a").bind
        GetMaxOffsetRequestHeader.toMap).bind (mapGetF "brokerName"))
      = some "broker-a" := by
  obtain ⟨lo, rpcopt⟩ := tr
  replace hrpc : rpcopt = some rpc := hrpc
  subst hrpc
  obtain ⟨ns, nd, bn, ow⟩ := rpc
  cases lo <;> cases ns <;> cases nd <;> cases ow <;>
  · simp [GetMaxOffsetRequestHeader.setBrokerName, htr,
      GetMaxOffsetRequestHeader.brokerNameGet,
      GetMaxOffsetRequestHeader.toMap, TopicRequestHeader.toMap,
      RpcRequestHeader.toMap, mapGetF, mapExtend, mapInsert, mapGet]

/-- A concrete header with empty sub-header levels both present. -/
def gmSample3 : GetMaxOffsetRequestHeader :=
  ⟨"t3", 2, true, some ⟨none, some ⟨none, none, none, none⟩⟩⟩

/-- C7 witness: the broker-name scenario at a concrete header. -/
theorem setBrokerName_roundtrip_witness :
    gmSample3.topic_request_header
        = some ⟨none, some ⟨none, none, none, none⟩⟩ ∧
    ((⟨none, some ⟨none, none, none, none⟩⟩ :
        TopicRequestHeader)).rpc_request_header = some ⟨none, none, none, none⟩ ∧
    ((gmSample3.setBrokerName "broker-a").bind
        GetMaxOffsetRequestHeader.brokerNameGet) = some (some "broker-a") ∧
    (((gmSample3.setBrokerName "broker-a").bind
        GetMaxOffsetRequestHeader.toMap).bind (mapGetF "brokerName"))
      = some "broker-a" := by
  refine ⟨rfl, rfl, ?_⟩
  exact setBrokerName_roundtrip gmSample3 ⟨none, some ⟨none, none, none, none⟩⟩
    ⟨none, none, none, none⟩ rfl rfl
